import Mathlib

/-!
# Verification of the wsdiff token-diff merge and fold-grouping engine

Shallow embedding of `src/wsdiff.py` (the core pipeline: `get_token_class`,
`iter_token_lines`, `RecordFormatter.format`, `html_diff_content`).

Texts are modelled as `List Char`.  The external collaborators
(`difflib._mdiff`, the pygments lexer) are not part of the repository; the
embedding takes their outputs — the aligned diff record list and the token
stream — as inputs, and where a claim needs their behaviour on a concrete
input it is modelled from the spec (see `mdiff_same`, `empty_text_tokens`).

The formatter in the source accumulates HTML strings; here each emitted line
is a structured record `RLine` carrying exactly the data the source
interpolates into its strings (side, displayed line number, change class,
and the styled spans with their full css class strings).  `html.escape` on
span text is presentation-only and is not applied; span `text` is the raw
source text, as in the spec's `StyledSpan`.
-/

namespace Wsdiff

/-- Which side of the diff a formatter renders (`RecordFormatter.side`). -/
inductive Side
  | left
  | right
deriving DecidableEq, Repr

/-- One styled sub-span of a rendered line: the full contents of the
`class="..."` attribute the source emits, and the span's text. -/
structure StyledSpan where
  cls : String
  text : List Char
deriving DecidableEq, Repr

/-- One rendered line, as appended to `RecordFormatter.lines`.
`empty` is the placeholder `<span ... wsd-empty>` pair emitted for diff
records whose line is missing on this side; `line` carries the displayed
line number, the change class (`""`, `" wsd-insert"` or `" wsd-change"`)
and the styled spans. -/
inductive RLine
  | empty (side : Side)
  | line (side : Side) (lineno : Nat) (change_class : String) (spans : List StyledSpan)
deriving DecidableEq, Repr

/-- Spans of a rendered line (placeholders have none). -/
def RLine.spans : RLine → List StyledSpan
  | .empty _ => []
  | .line _ _ _ s => s

/-- `true` iff the line is a placeholder. -/
def RLine.isPlaceholder : RLine → Bool
  | .empty _ => true
  | .line _ _ _ _ => false

/-- One side of one `difflib._mdiff` record: the line number (`none` models
the falsy `''` padding value) and the diff-marked text. -/
structure DiffLine where
  lineno : Option Nat
  text : List Char
deriving DecidableEq, Repr

/-- One aligned record of `difflib._mdiff(old.splitlines(), new.splitlines())`:
`(old, new, changed)`. -/
structure MdiffRecord where
  old : DiffLine
  new : DiffLine
  changed : Bool
deriving DecidableEq, Repr

/-- An mdiff record as seen from one formatter after the swap performed in
`RecordFormatter.__init__` (`ours` first). -/
structure DiffRec where
  ours : DiffLine
  theirs : DiffLine
  changed : Bool
deriving DecidableEq, Repr

/-- The tuple reorder in `RecordFormatter.__init__`: the right-side
formatter swaps the two sides of every record. -/
def sided (side : Side) (r : MdiffRecord) : DiffRec :=
  match side with
  | .left => ⟨r.old, r.new, r.changed⟩
  | .right => ⟨r.new, r.old, r.changed⟩

/-- A pygments token type, modelled as its attribute path from the root in
reverse (`["Constant", "Keyword"]` is `Token.Keyword.Constant`); `[]` is the
root `Token`, and `.parent` is `List.tail`. -/
abbrev Ttype := List String

/-- A lexer token: token type and text. -/
abbrev Tok := Ttype × List Char

/-- The pygments `STANDARD_TYPES` dict (external data, subset).  The root
`Token` and `Text` map to `''`; types absent from the dict return the falsy
`None` in the source, which the loop in `get_token_class` treats exactly
like `''`, so both are modelled as `""`. -/
def STANDARD_TYPES : Ttype → String
  | [] => ""
  | ["Text"] => ""
  | ["Whitespace", "Text"] => "w"
  | ["Keyword"] => "k"
  | ["Constant", "Keyword"] => "kc"
  | ["Name"] => "n"
  | ["Literal"] => "l"
  | ["String", "Literal"] => "s"
  | ["Comment"] => "c"
  | ["Punctuation"] => "p"
  | _ => ""

/-- `wsdiff.get_token_class`: walk up the token-type hierarchy until a
non-falsy standard abbreviation is found and prefix it with `wsd-`;
reaching the root `Token` yields the bare class `'n'`. -/
def get_token_class : Ttype → String
  | [] => if STANDARD_TYPES [] = "" then "n" else "wsd-" ++ STANDARD_TYPES []
  | t :: parent =>
    if STANDARD_TYPES (t :: parent) = "" then get_token_class parent
    else "wsd-" ++ STANDARD_TYPES (t :: parent)

/-- The marker scan of `RecordFormatter.format` (lines 598–604): the source
splits the diff-marked text with `re.split(r'(\00.|\01|$)', ...)` and pairs
each plain-text segment's cumulative length with the following separator.
This walks the marked text directly: a NUL byte followed by a character
(`.` does not match a newline) is a two-byte start marker, `'\x01'` is the
end marker, everything else is plain text advancing the offset.  Offsets
are in plain-text coordinates. -/
def scan_markers (pos : Nat) : List Char → List (Nat × List Char)
  | [] => []
  | '\x00' :: c :: rest =>
    if c = '\n' then scan_markers (pos + 1) (c :: rest)
    else (pos, ['\x00', c]) :: scan_markers pos rest
  | '\x01' :: rest => (pos, ['\x01']) :: scan_markers pos rest
  | _ :: rest => scan_markers (pos + 1) rest

/-- The `while diff_markers:` loop plus the final span emission for one
token (lines 611–623): cut the token's text at every pending marker whose
offset falls in `[source_pos, source_pos + len(value))`, emitting the piece
before each cut with the *extra* `wsd-` prefix the source writes at line
616, toggling the diff class at each consumed marker, then emit the rest as
one span with the unprefixed class of line 622.  Returns the spans, the
advanced source position, the final diff class and the unconsumed
markers. -/
def split_token (css : String) :
    List Char → Nat → String → List (Nat × List Char) →
      List StyledSpan × Nat × String × List (Nat × List Char)
  | value, source_pos, diff_class, [] =>
    ([⟨css ++ diff_class, value⟩], source_pos + value.length, diff_class, [])
  | value, source_pos, diff_class, (mpos, mtype) :: ms =>
    if source_pos ≤ mpos ∧ mpos < source_pos + value.length then
      let l := value.take (mpos - source_pos)
      let rest := value.drop (mpos - source_pos)
      let diff_class' := if mtype.head? = some '\x00' then " wsd-word-change" else ""
      let out := split_token css rest (source_pos + l.length) diff_class' ms
      (⟨"wsd-" ++ css ++ diff_class, l⟩ :: out.1, out.2)
    else
      ([⟨css ++ diff_class, value⟩], source_pos + value.length, diff_class, (mpos, mtype) :: ms)

/-- The per-line token loop of `RecordFormatter.format` (lines 608–623):
resolve each token's css class and split it at the pending markers. -/
def format_line_tokens :
    List Tok → Nat → String → List (Nat × List Char) → List StyledSpan
  | [], _, _, _ => []
  | (t, v) :: rest, source_pos, diff_class, markers =>
    let css := get_token_class t
    let out := split_token css v source_pos diff_class markers
    out.1 ++ format_line_tokens rest out.2.1 out.2.2.1 out.2.2.2

/-- A token value cut at its newlines: the pieces strictly between (and
around) the `'\n'` characters, in order, newlines dropped.  This is the
repeated `value.partition('\n')` of `wsdiff.iter_token_lines`; the result
always has one more piece than the value has newlines. -/
def value_lines : List Char → List (List Char)
  | [] => [[]]
  | c :: rest =>
    if c = '\n' then [] :: value_lines rest
    else
      match value_lines rest with
      | [] => [[c]]
      | p :: ps => (c :: p) :: ps

/-- The yield pattern of the `partition('\n')` loop of
`wsdiff.iter_token_lines` over the pieces of one token value: every piece
before a newline is yielded with its line number (incrementing the counter
past each newline), and the final piece (the text after the last newline)
is yielded only when non-empty.  Returns the yielded `(lineno, ttype, text)`
triples and the line number left for the next token. -/
def pieces_to_lines (t : Ttype) : Nat → List (List Char) → List (Nat × Tok) × Nat
  | lineno, [] => ([], lineno)
  | lineno, [p] => (if p = [] then [] else [(lineno, t, p)], lineno)
  | lineno, p :: q :: ps =>
    let out := pieces_to_lines t (lineno + 1) (q :: ps)
    ((lineno, t, p) :: out.1, out.2)

/-- The `partition('\n')` loop of `wsdiff.iter_token_lines` for a single
token. -/
def token_lines_one (t : Ttype) (lineno : Nat) (value : List Char) :
    List (Nat × Tok) × Nat :=
  pieces_to_lines t lineno (value_lines value)

/-- `wsdiff.iter_token_lines` over the whole token stream, threading the
line counter (which starts at 1). -/
def iter_token_lines_from (lineno : Nat) : List Tok → List (Nat × Tok)
  | [] => []
  | (t, v) :: rest =>
    let out := token_lines_one t lineno v
    out.1 ++ iter_token_lines_from out.2 rest

/-- `wsdiff.iter_token_lines` (line counter starts at 1). -/
def iter_token_lines (tokens : List Tok) : List (Nat × Tok) :=
  iter_token_lines_from 1 tokens

/-- `itertools.groupby` with a key function: maximal runs of adjacent
elements with equal keys.  (The arms for an empty previous run cannot
arise; they are chosen so that joining the runs always restores the
input.) -/
def group_runs {α κ : Type} [DecidableEq κ] (key : α → κ) : List α → List (List α)
  | [] => []
  | x :: xs =>
    match group_runs key xs with
    | [] => [[x]]
    | [] :: gs => [x] :: gs
    | (y :: ys) :: gs =>
      if key x = key y then (x :: y :: ys) :: gs else [x] :: (y :: ys) :: gs

/-- The `groupby(iter_token_lines(...), key=lambda arg: arg[0])` of
`RecordFormatter.format`: runs of token-line triples sharing a line number,
as `(lineno, tokens of that line)`. -/
def group_by_lineno (l : List (Nat × Tok)) : List (Nat × List Tok) :=
  (group_runs (fun x => x.1) l).map
    (fun run => (((run.head?).map (fun x => x.1)).getD 0, run.map (fun x => x.2)))

/-- Lines 589–629 of `RecordFormatter.format` for one token-line group once
the diff record for it is in hand: compute the change class (`''` when
unchanged, `' wsd-insert'` when either side's line number is falsy, else
`' wsd-change'`), scan the markers out of our diff-marked text — suppressed
entirely when the other side has no line —, split the line's tokens at the
markers, and package the rendered line together with its change flag. -/
def render_line (side : Side) (lineno : Nat) (toks : List Tok) (r : DiffRec) :
    Bool × RLine :=
  let change_class :=
    if r.changed = false then ""
    else if r.ours.lineno = none ∨ r.theirs.lineno = none then " wsd-insert"
    else " wsd-change"
  let diff_markers := if r.theirs.lineno ≠ none then scan_markers 0 r.ours.text else []
  (r.changed, RLine.line side lineno change_class (format_line_tokens toks 0 "" diff_markers))

/-- Result of the `for ... in diff: if lineno_ours == lineno: break` scan:
either the matching record was found (with the records after it), or the
iterator was exhausted (`last` is the final record examined, `none` when
the iterator was already empty so the loop variables keep their previous
values). -/
inductive ScanResult
  | found (r : DiffRec) (rest : List DiffRec)
  | exhausted (last : Option DiffRec)
deriving DecidableEq, Repr

/-- The inner diff-consuming loop of `RecordFormatter.format` (lines
583–587): walk the remaining diff records, emitting a `(True, placeholder)`
line for every record whose our-side line number is not the current token
line number, until a match is found or the records run out. -/
def scan_to_line (side : Side) (lineno : Nat) :
    List DiffRec → List (Bool × RLine) × ScanResult
  | [] => ([], .exhausted none)
  | r :: rest =>
    if r.ours.lineno = some lineno then ([], .found r rest)
    else
      match scan_to_line side lineno rest with
      | (phs, .exhausted none) => ((true, RLine.empty side) :: phs, .exhausted (some r))
      | (phs, res) => ((true, RLine.empty side) :: phs, res)

/-- The body of `RecordFormatter.format`: one iteration per token-line
group, threading the shared diff iterator and the loop variables of the
inner `for` (modelled as `binding : Option DiffRec`; `none` means the
variables were never assigned, so reading `change` at line 589 raises
`UnboundLocalError` — modelled as `none`).  After the last group, the
remaining records each produce one trailing placeholder line (lines
631–632). -/
def format_groups (side : Side) :
    List (Nat × List Tok) → List DiffRec → Option DiffRec →
      Option (List (Bool × RLine))
  | [], diff, _ => some (diff.map (fun _ => (true, RLine.empty side)))
  | (lineno, toks) :: gs, diff, binding =>
    match scan_to_line side lineno diff with
    | (phs, .found r rest) =>
      (format_groups side gs rest (some r)).map
        (fun tail => phs ++ render_line side lineno toks r :: tail)
    | (phs, .exhausted last) =>
      match last.orElse (fun _ => binding) with
      | none => none
      | some r =>
        (format_groups side gs [] (some r)).map
          (fun tail => phs ++ render_line side lineno toks r :: tail)

/-- `RecordFormatter(side, diff)` plus `format(tokens, ...)`: swap the diff
records for the right side, group the token stream into lines, and run the
merge.  `none` models the `UnboundLocalError` raised when the `change`
variable is read before the inner loop ever bound it. -/
def RecordFormatter_format (side : Side) (diff : List MdiffRecord)
    (tokens : List Tok) : Option (List (Bool × RLine)) :=
  format_groups side (group_by_lineno (iter_token_lines tokens)) (diff.map (sided side)) none

/-- One element of the flat output stream of `html_diff_content`: the
opening `<div class="wsd-collapse">...` (carrying the folded-line count
interpolated into its label), the closing `</div>`, or one rendered
line. -/
inductive OutItem
  | openFold (count : Nat)
  | closeFold
  | line (l : RLine)
deriving DecidableEq, Repr

/-- `true` iff the item is a rendered line (not a fold marker). -/
def OutItem.isLine : OutItem → Bool
  | .line _ => true
  | _ => false

/-- The two line items a left/right pair contributes to the output. -/
def pair_lines (p : (Bool × RLine) × (Bool × RLine)) : List OutItem :=
  [.line p.1.2, .line p.2.2]

/-- The `for i, (...) in enumerate(group)` loop of `html_diff_content`
(lines 647–653): before the pair at index `context_len` open the collapse
`div` (labelled with `len(group) - 2*context_len`), emit the left then the
right line, and after the pair at index `len(group) - context_len - 1`
close it.  (When `do_collapse` holds, `len(group) > 2*context_len`, so the
Python int arithmetic agrees with truncated `Nat` subtraction.) -/
def emit_from (do_collapse : Bool) (context_len L : Nat) :
    Nat → List ((Bool × RLine) × (Bool × RLine)) → List OutItem
  | _, [] => []
  | i, p :: rest =>
    (if do_collapse = true ∧ i = context_len then [.openFold (L - 2 * context_len)] else [])
      ++ pair_lines p
      ++ (if do_collapse = true ∧ i = L - context_len - 1 then [.closeFold] else [])
      ++ emit_from do_collapse context_len L (i + 1) rest

/-- Per-run emission of `html_diff_content`: the group's key is the change
flag of the left line of its first pair, and
`do_collapse = not change and len(group) > 2*context_len + fold_min`. -/
def emit_group (context_len fold_min : Nat)
    (grp : List ((Bool × RLine) × (Bool × RLine))) : List OutItem :=
  let change := match grp with | [] => false | p :: _ => p.1.1
  let do_collapse := !change && decide (grp.length > 2 * context_len + fold_min)
  emit_from do_collapse context_len grp.length 0 grp

/-- The fold-grouping loop of `html_diff_content` (lines 643–653): group
the zipped line pairs into runs by the left line's change flag and emit
each run. -/
def fold_content (context_len fold_min : Nat)
    (zipped : List ((Bool × RLine) × (Bool × RLine))) : List OutItem :=
  (group_runs (fun p => p.1.1) zipped).flatMap (emit_group context_len fold_min)

/-- `wsdiff.html_diff_content`, with the outputs of the two external
collaborators (`difflib._mdiff` on the two line lists, and the pygments
token streams of the two full texts) taken as inputs: run both formatters
and fold the zipped pair stream.  `none` propagates a formatter error. -/
def html_diff_content (diff : List MdiffRecord) (old_tokens new_tokens : List Tok)
    (context_len fold_min : Nat) : Option (List OutItem) := do
  let ll ← RecordFormatter_format .left diff old_tokens
  let rl ← RecordFormatter_format .right diff new_tokens
  some (fold_content context_len fold_min (ll.zip rl))

/-- Modelled from the spec: the external diff engine (`difflib._mdiff`,
absent from the repository) on two identical line lists emits one record
per aligned line position; on identical inputs every line is paired with
itself, numbered from 1 on both sides, with `changed = False`, and on
empty inputs it emits nothing. -/
def mdiff_same (start : Nat) : List (List Char) → List MdiffRecord
  | [] => []
  | l :: ls => ⟨⟨some start, l⟩, ⟨some start, l⟩, false⟩ :: mdiff_same (start + 1) ls

/-- Modelled from the spec: the external pygments lexer (absent from the
repository) normalizes its input to end with a newline, so on the empty
text it still yields a token stream concatenating to `"\n"` — one token
line. -/
def empty_text_tokens : List Tok := [(["Text"], ['\n'])]

/-- Concatenated span text of a formatter's output, placeholders
contributing nothing. -/
def spans_text (lines : List (Bool × RLine)) : List Char :=
  lines.flatMap (fun p => (p.2.spans).flatMap (fun s => s.text))

/-- The change class carried by a rendered line (placeholders carry
none). -/
def RLine.change_class : RLine → String
  | .empty _ => ""
  | .line _ _ cc _ => cc

/-- Concrete input for the C2 witness: 10 unchanged line pairs. -/
def c2_pairs : List ((Bool × RLine) × (Bool × RLine)) :=
  (List.range' 1 10).map
    (fun i => ((false, RLine.line .left i "" []), (false, RLine.line .right i "" [])))

/-- Concrete diff for the C4 witness: old `"a\n"` against new `"a\nb\n"`
(one unchanged pair, one pure insert pair). -/
def c4_diff : List MdiffRecord :=
  [⟨⟨some 1, ['a']⟩, ⟨some 1, ['a']⟩, false⟩,
   ⟨⟨none, []⟩, ⟨some 2, ['b']⟩, true⟩]

/-- Modelled from the spec: the single aligned record the external diff
engine (`difflib._mdiff`) emits for old `""` against new `"a"` — the left
side is the falsy padding `('', '\n')`, the right side line 1 with its
whole-line word-change markers, `changed` true. -/
def c4_empty_old_diff : List MdiffRecord :=
  [⟨⟨none, ['\n']⟩, ⟨some 1, "\x00+a\x01".toList⟩, true⟩]

/-! ## General lemmas -/

/-- Flat-mapping over a flattened list of lists. -/
theorem flatMap_flatten {α β : Type} (L : List (List α)) (f : α → List β) :
    L.flatten.flatMap f = L.flatMap (fun l => l.flatMap f) := by
  induction L with
  | nil => rfl
  | cons l L ih => simp [List.flatMap_append, ih]

/-- Joining the runs produced by `group_runs` restores the input list. -/
theorem group_runs_flatten {α κ : Type} [DecidableEq κ] (key : α → κ) (l : List α) :
    (group_runs key l).flatten = l := by
  induction l with
  | nil => rfl
  | cons x xs ih =>
    simp only [group_runs]
    match h : group_runs key xs with
    | [] => simp [h] at ih; simp [ih]
    | [] :: gs => rw [h] at ih; simpa using ih
    | (y :: ys) :: gs =>
      rw [h] at ih
      by_cases hk : key x = key y <;> simp [hk] <;> simpa using ih

/-- A non-empty list whose elements all share one key value forms a single
run. -/
theorem group_runs_of_const {α κ : Type} [DecidableEq κ] (key : α → κ) (k : κ)
    (l : List α) (hne : l ≠ []) (hall : ∀ a ∈ l, key a = k) :
    group_runs key l = [l] := by
  induction l with
  | nil => exact absurd rfl hne
  | cons x xs ih =>
    cases xs with
    | nil => rfl
    | cons y ys =>
      have hxs : group_runs key (y :: ys) = [y :: ys] := by
        refine ih (by simp) ?_
        intro a ha
        exact hall a (List.mem_cons_of_mem x ha)
      have hunf : group_runs key (x :: y :: ys) =
          match group_runs key (y :: ys) with
          | [] => [[x]]
          | [] :: gs => [x] :: gs
          | (z :: zs) :: gs =>
            if key x = key z then (x :: z :: zs) :: gs else [x] :: (z :: zs) :: gs := rfl
      rw [hunf, hxs]
      have hx : key x = key y := by
        rw [hall x (by simp), hall y (by simp [List.mem_cons])]
      simp [hx]

/-! ## Span-text conservation -/

/-- Splitting a token at markers preserves its text. -/
theorem split_token_text (css : String) (value : List Char) (source_pos : Nat)
    (diff_class : String) (markers : List (Nat × List Char)) :
    ((split_token css value source_pos diff_class markers).1.flatMap
        (fun s => s.text)) = value := by
  induction markers generalizing value source_pos diff_class with
  | nil => simp [split_token]
  | cons m ms ih =>
    obtain ⟨mpos, mtype⟩ := m
    simp only [split_token]
    by_cases h : source_pos ≤ mpos ∧ mpos < source_pos + value.length
    · simp only [if_pos h, List.flatMap_cons]
      rw [ih]
      exact List.take_append_drop _ _
    · simp [if_neg h]

/-- The per-line token loop preserves the concatenated token text. -/
theorem format_line_tokens_text (toks : List Tok) (source_pos : Nat)
    (diff_class : String) (markers : List (Nat × List Char)) :
    ((format_line_tokens toks source_pos diff_class markers).flatMap
        (fun s => s.text)) = toks.flatMap (fun p => p.2) := by
  induction toks generalizing source_pos diff_class markers with
  | nil => rfl
  | cons tv rest ih =>
    obtain ⟨t, v⟩ := tv
    simp only [format_line_tokens, List.flatMap_append, List.flatMap_cons]
    rw [ih, split_token_text]

/-- `value_lines` always produces at least one piece. -/
theorem value_lines_ne_nil (value : List Char) : value_lines value ≠ [] := by
  induction value with
  | nil => simp [value_lines]
  | cons c rest ih =>
    simp only [value_lines]
    by_cases hc : c = '\n'
    · simp [hc]
    · rw [if_neg hc]
      match h : value_lines rest with
      | [] => simp
      | p :: ps => simp

/-- Flattening the pieces of a value recovers the value minus its
newlines. -/
theorem value_lines_flatten (value : List Char) :
    (value_lines value).flatten = value.filter (fun c => c ≠ '\n') := by
  induction value with
  | nil => rfl
  | cons c rest ih =>
    simp only [value_lines]
    by_cases hc : c = '\n'
    · subst hc
      simp [ih]
    · rw [if_neg hc]
      match h : value_lines rest with
      | [] => exact absurd h (value_lines_ne_nil rest)
      | p :: ps =>
        rw [h] at ih
        simp only [List.flatten_cons] at ih
        simp [List.filter_cons, hc]
        simpa using ih

/-- The yielded texts of `pieces_to_lines` flatten to the pieces (an empty
final piece contributes nothing either way). -/
theorem pieces_to_lines_text (t : Ttype) :
    ∀ (lineno : Nat) (ps : List (List Char)),
      ((pieces_to_lines t lineno ps).1.flatMap (fun x => x.2.2)) = ps.flatten := by
  intro lineno ps
  induction ps generalizing lineno with
  | nil => rfl
  | cons p qs ih =>
    cases qs with
    | nil =>
      by_cases hp : p = []
      · simp [pieces_to_lines, hp]
      · simp [pieces_to_lines, hp]
    | cons q rs =>
      simp only [pieces_to_lines, List.flatMap_cons, List.flatten_cons]
      rw [ih (lineno + 1)]
      simp [List.flatten_cons]

/-- The texts yielded for one token are its value minus the newlines. -/
theorem token_lines_one_text (t : Ttype) (lineno : Nat) (value : List Char) :
    ((token_lines_one t lineno value).1.flatMap (fun x => x.2.2))
      = value.filter (fun c => c ≠ '\n') := by
  rw [token_lines_one, pieces_to_lines_text, value_lines_flatten]

/-- The texts yielded by `iter_token_lines_from` are the concatenated token
texts minus the newlines. -/
theorem iter_token_lines_from_text (lineno : Nat) (tokens : List Tok) :
    ((iter_token_lines_from lineno tokens).flatMap (fun x => x.2.2))
      = (tokens.flatMap (fun p => p.2)).filter (fun c => c ≠ '\n') := by
  induction tokens generalizing lineno with
  | nil => rfl
  | cons tv rest ih =>
    obtain ⟨t, v⟩ := tv
    simp only [iter_token_lines_from, List.flatMap_append, List.flatMap_cons,
      List.filter_append]
    rw [ih, token_lines_one_text]

/-- Grouping the token-line triples by line number preserves the
concatenated texts. -/
theorem group_by_lineno_text (l : List (Nat × Tok)) :
    ((group_by_lineno l).flatMap (fun g => g.2.flatMap (fun p => p.2)))
      = l.flatMap (fun x => x.2.2) := by
  unfold group_by_lineno
  rw [List.flatMap_map]
  have : ∀ run : List (Nat × Tok),
      ((run.map (fun x => x.2)).flatMap (fun p => p.2)) = run.flatMap (fun x => x.2.2) := by
    intro run
    rw [List.flatMap_map]
  calc ((group_runs (fun x => x.1) l).flatMap
        fun run => ((run.head?.map (fun x => x.1)).getD 0, run.map (fun x => x.2)).2.flatMap
          (fun p => p.2))
      = (group_runs (fun x => x.1) l).flatMap (fun run => run.flatMap (fun x => x.2.2)) := by
        apply List.flatMap_congr
        intro run _
        exact this run
    _ = (group_runs (fun x => x.1) l).flatten.flatMap (fun x => x.2.2) :=
        (flatMap_flatten _ _).symm
    _ = l.flatMap (fun x => x.2.2) := by rw [group_runs_flatten]

theorem spans_text_append (a b : List (Bool × RLine)) :
    spans_text (a ++ b) = spans_text a ++ spans_text b :=
  List.flatMap_append a b _

theorem spans_text_cons (x : Bool × RLine) (l : List (Bool × RLine)) :
    spans_text (x :: l) = (x.2.spans).flatMap (fun s => s.text) ++ spans_text l :=
  List.flatMap_cons x l _

/-- The placeholder lines emitted while scanning for a token line carry no
span text. -/
theorem scan_to_line_spans (side : Side) (lineno : Nat) :
    ∀ diff : List DiffRec, spans_text (scan_to_line side lineno diff).1 = [] := by
  intro diff
  induction diff with
  | nil => rfl
  | cons r rest ih =>
    simp only [scan_to_line]
    by_cases hr : r.ours.lineno = some lineno
    · rw [if_pos hr]
      rfl
    · rw [if_neg hr]
      rcases hs : scan_to_line side lineno rest with ⟨phs, res⟩
      rw [hs] at ih
      cases res with
      | found r2 rest2 =>
        simpa [spans_text_cons, RLine.spans] using ih
      | exhausted last =>
        cases last with
        | none => simpa [spans_text_cons, RLine.spans] using ih
        | some x => simpa [spans_text_cons, RLine.spans] using ih

/-- The span text of a successfully formatted group list is the
concatenated token text of its groups (placeholders contribute nothing,
each group contributes its line's tokens). -/
theorem format_groups_text (side : Side) :
    ∀ (gs : List (Nat × List Tok)) (diff : List DiffRec) (b : Option DiffRec)
      (out : List (Bool × RLine)),
      format_groups side gs diff b = some out →
      spans_text out = gs.flatMap (fun g => g.2.flatMap (fun p => p.2)) := by
  intro gs
  induction gs with
  | nil =>
    intro diff b out h
    simp only [format_groups, Option.some.injEq] at h
    subst h
    simp [spans_text, List.flatMap_map, RLine.spans]
  | cons g gs ih =>
    obtain ⟨lineno, toks⟩ := g
    intro diff b out h
    simp only [format_groups] at h
    rcases hs : scan_to_line side lineno diff with ⟨phs, res⟩
    rw [hs] at h
    have hphs : spans_text phs = [] := by
      have := scan_to_line_spans side lineno diff
      rw [hs] at this
      exact this
    cases res with
    | found r rest =>
      simp only [Option.map_eq_some'] at h
      obtain ⟨tail, htail, hout⟩ := h
      subst hout
      rw [spans_text_append, hphs, spans_text_cons, ih rest (some r) tail htail]
      simp only [List.nil_append, List.flatMap_cons]
      congr 1
      simp only [render_line, RLine.spans]
      exact format_line_tokens_text toks 0 "" _
    | exhausted last =>
      have h' : (match last.orElse (fun _ => b) with
          | none => none
          | some r => (format_groups side gs [] (some r)).map
              (fun tail => phs ++ render_line side lineno toks r :: tail)) = some out := h
      clear h
      cases hlb : last.orElse (fun _ => b) with
      | none =>
        rw [hlb] at h'
        exact absurd h' (by simp)
      | some r =>
        rw [hlb] at h'
        simp only [Option.map_eq_some'] at h'
        obtain ⟨tail, htail, hout⟩ := h'
        subst hout
        rw [spans_text_append, hphs, spans_text_cons, ih [] (some r) tail htail]
        simp only [List.nil_append, List.flatMap_cons]
        congr 1
        simp only [render_line, RLine.spans]
        exact format_line_tokens_text toks 0 "" _

/-- **C1 (amended): reconstruction modulo newlines.**  Whenever a formatter
run succeeds, the concatenated span text across all its rendered lines
(placeholders contribute nothing) equals the side's full token text — its
original input text under the lexer precondition — with all newline
characters removed. -/
theorem C1_reconstruction (side : Side) (diff : List MdiffRecord)
    (tokens : List Tok) (out : List (Bool × RLine)) (T : List Char)
    (hfmt : RecordFormatter_format side diff tokens = some out)
    (htok : tokens.flatMap (fun p => p.2) = T) :
    spans_text out = T.filter (fun c => c ≠ '\n') := by
  subst htok
  rw [format_groups_text side _ _ _ _ hfmt, group_by_lineno_text,
    iter_token_lines, iter_token_lines_from_text]

/-- Witness for `C1_reconstruction` at a concrete run (one unchanged line
`"a"`, token text `"a\n"`). -/
theorem C1_reconstruction_witness :
    spans_text [(false, RLine.line .left 1 "" [⟨"wsd-n", ['a']⟩])]
      = ("a\n".toList).filter (fun c => c ≠ '\n') :=
  C1_reconstruction .left
    [⟨⟨some 1, ['a']⟩, ⟨some 1, ['a']⟩, false⟩]
    [(["Name"], "a\n".toList)]
    [(false, RLine.line .left 1 "" [⟨"wsd-n", ['a']⟩])]
    ("a\n".toList) (by decide) (by decide)

/-- **C1 counterexample**: with the one-line input text `"a\n"` (one
unchanged diff line `"a"`, token stream concatenating exactly to the input
text), the concatenated span text is `"a"`, not the original text `"a\n"` —
the emitted spans never contain the newline characters, so concatenating
them does not reconstruct the side's input text *including newlines* as the
claim states. -/
theorem C1_reconstruction_counterexample :
    RecordFormatter_format .left
        [⟨⟨some 1, ['a']⟩, ⟨some 1, ['a']⟩, false⟩] [(["Name"], "a\n".toList)]
      = some [(false, RLine.line .left 1 "" [⟨"wsd-n", ['a']⟩])]
    ∧ spans_text [(false, RLine.line .left 1 "" [⟨"wsd-n", ['a']⟩])] = ['a']
    ∧ ((["Name"], "a\n".toList) :: []).flatMap (fun p : Tok => p.2) = "a\n".toList
    ∧ ['a'] ≠ "a\n".toList := by
  refine ⟨by decide, by decide, by decide, by decide⟩

/-! ## Fold grouping -/

/-- Filtering distributes over `flatMap`. -/
theorem filter_flatMap {α β : Type} (l : List α) (f : α → List β) (p : β → Bool) :
    (l.flatMap f).filter p = l.flatMap (fun a => (f a).filter p) := by
  induction l with
  | nil => rfl
  | cons x xs ih => simp [List.flatMap_cons, List.filter_append, ih]

/-- Without collapsing, a run is emitted as its pairs' lines in order. -/
theorem emit_from_no_collapse (c L : Nat) :
    ∀ (g : List ((Bool × RLine) × (Bool × RLine))) (i : Nat),
      emit_from false c L i g = g.flatMap pair_lines := by
  intro g
  induction g with
  | nil => intro i; rfl
  | cons p rest ih =>
    intro i
    simp only [emit_from, ih (i + 1)]
    simp [pair_lines]

/-- Past the closing index, a collapsed run's remainder is emitted as plain
lines. -/
theorem emit_from_post (c L : Nat) :
    ∀ (g : List ((Bool × RLine) × (Bool × RLine))) (i : Nat),
      c < i → L - c - 1 < i →
      emit_from true c L i g = g.flatMap pair_lines := by
  intro g
  induction g with
  | nil => intro i _ _; rfl
  | cons p rest ih =>
    intro i hc hl
    simp only [emit_from, ih (i + 1) (by omega) (by omega)]
    simp [show i ≠ c from by omega, show i ≠ L - c - 1 from by omega, pair_lines]

/-- Between the opening and closing indices, a collapsed run emits its
remaining pairs up to and including index `L - c - 1`, then the closing
marker, then the rest. -/
theorem emit_from_mid (c L : Nat) :
    ∀ (g : List ((Bool × RLine) × (Bool × RLine))) (i : Nat),
      c < i → i ≤ L - c - 1 → i + g.length = L →
      emit_from true c L i g
        = (g.take (L - c - i)).flatMap pair_lines ++ [OutItem.closeFold]
            ++ (g.drop (L - c - i)).flatMap pair_lines := by
  intro g
  induction g with
  | nil =>
    intro i hc hl hlen
    simp only [List.length_nil, Nat.add_zero] at hlen
    omega
  | cons p rest ih =>
    intro i hc hl hlen
    simp only [List.length_cons] at hlen
    by_cases hclose : i = L - c - 1
    · have htd : L - c - i = 0 + 1 := by omega
      simp only [emit_from,
        emit_from_post c L rest (i + 1) (by omega) (by omega), htd,
        List.take_succ_cons, List.take_zero, List.drop_succ_cons, List.drop_zero]
      simp [show i ≠ c from by omega, hclose, pair_lines]
      omega
    · have htd : L - c - i = (L - c - (i + 1)) + 1 := by omega
      simp only [emit_from,
        ih (i + 1) (by omega) (by omega) (by omega), htd,
        List.take_succ_cons, List.drop_succ_cons]
      simp [show i ≠ c from by omega, hclose, pair_lines]

/-- Up to the opening index, a collapsed run emits its first `c - i` pairs,
the opening marker, the middle `L - 2c` pairs, the closing marker, and the
final pairs. -/
theorem emit_from_pre (c L : Nat) :
    ∀ (g : List ((Bool × RLine) × (Bool × RLine))) (i : Nat),
      i ≤ c → i + g.length = L → 2 * c + 1 ≤ L →
      emit_from true c L i g
        = (g.take (c - i)).flatMap pair_lines ++ [OutItem.openFold (L - 2 * c)]
            ++ ((g.drop (c - i)).take (L - 2 * c)).flatMap pair_lines
            ++ [OutItem.closeFold]
            ++ (g.drop (L - c - i)).flatMap pair_lines := by
  intro g
  induction g with
  | nil =>
    intro i hc hlen hL
    simp only [List.length_nil, Nat.add_zero] at hlen
    omega
  | cons p rest ih =>
    intro i hc hlen hL
    simp only [List.length_cons] at hlen
    by_cases hopen : i = c
    · by_cases hclose : i = L - c - 1
      · have hm : L - 2 * c = 0 + 1 := by omega
        have hd : L - c - i = 0 + 1 := by omega
        have hci : c - i = 0 := by omega
        simp only [emit_from,
          emit_from_post c L rest (i + 1) (by omega) (by omega),
          hm, hd, hci, List.take_zero, List.drop_zero,
          List.take_succ_cons, List.drop_succ_cons]
        simp [hopen, hclose, pair_lines]
        rw [if_pos (show c = L - c - 1 from by omega)]
        simp
      · have hm : L - 2 * c = (L - c - (i + 1)) + 1 := by omega
        have hd : L - c - i = (L - c - (i + 1)) + 1 := by omega
        have hci : c - i = 0 := by omega
        simp only [emit_from,
          emit_from_mid c L rest (i + 1) (by omega) (by omega) (by omega),
          hm, hd, hci, List.take_zero, List.drop_zero, List.take_succ_cons,
          List.drop_succ_cons]
        simp [hopen, hclose, pair_lines]
        omega
    · have ht : c - i = (c - (i + 1)) + 1 := by omega
      have hd : L - c - i = (L - c - (i + 1)) + 1 := by omega
      simp only [emit_from,
        ih (i + 1) (by omega) (by omega) hL, ht, hd, List.take_succ_cons,
        List.drop_succ_cons]
      simp [hopen, show i ≠ L - c - 1 from by omega, pair_lines]

/-- **C2**: the fold threshold and fold boundaries of `html_diff_content`.
For an unchanged run `grp` (all left change flags `False`) and any
`context_len`/`fold_min`: if `len(grp) ≤ 2*context_len + fold_min` the run
is emitted unfolded, otherwise the first and last `context_len` pairs stay
visible and exactly the middle `len(grp) - 2*context_len` pairs are
wrapped between the opening collapse marker (labelled with that count) and
the closing marker. -/
theorem C2_fold_threshold (context_len fold_min : Nat)
    (grp : List ((Bool × RLine) × (Bool × RLine)))
    (hkeys : ∀ p ∈ grp, p.1.1 = false) :
    (grp.length ≤ 2 * context_len + fold_min →
      emit_group context_len fold_min grp = grp.flatMap pair_lines)
    ∧ (2 * context_len + fold_min < grp.length →
      emit_group context_len fold_min grp
        = (grp.take context_len).flatMap pair_lines
            ++ [OutItem.openFold (grp.length - 2 * context_len)]
            ++ ((grp.drop context_len).take (grp.length - 2 * context_len)).flatMap pair_lines
            ++ [OutItem.closeFold]
            ++ (grp.drop (grp.length - context_len)).flatMap pair_lines) := by
  cases grp with
  | nil =>
    constructor
    · intro _
      rfl
    · intro h
      simp only [List.length_nil] at h
      exact absurd h (by omega)
  | cons p rest =>
    have hp : p.1.1 = false := hkeys p (by simp)
    constructor
    · intro hle
      have hdec : decide ((p :: rest).length > 2 * context_len + fold_min) = false := by
        simp only [decide_eq_false_iff_not]
        omega
      simp only [emit_group, hp, hdec, Bool.not_false, Bool.true_and, Bool.and_false]
      exact emit_from_no_collapse context_len (p :: rest).length (p :: rest) 0
    · intro hgt
      have hdec : decide ((p :: rest).length > 2 * context_len + fold_min) = true := by
        simp only [decide_eq_true_eq]
        omega
      simp only [emit_group, hp, hdec, Bool.not_false, Bool.true_and, Bool.and_true]
      have := emit_from_pre context_len (p :: rest).length (p :: rest) 0
        (by omega) (by omega) (by omega)
      simpa using this

/-- Witness for `C2_fold_threshold` at the claim's own instance:
`context_len = 2`, `fold_min = 3`, an unchanged run of length 10 — one fold
group wrapping exactly `10 - 2*2 = 6` pairs with 2 visible pairs before and
after. -/
theorem C2_fold_threshold_witness :
    emit_group 2 3 c2_pairs
      = (c2_pairs.take 2).flatMap pair_lines
          ++ [OutItem.openFold (c2_pairs.length - 2 * 2)]
          ++ ((c2_pairs.drop 2).take (c2_pairs.length - 2 * 2)).flatMap pair_lines
          ++ [OutItem.closeFold]
          ++ (c2_pairs.drop (c2_pairs.length - 2)).flatMap pair_lines :=
  (C2_fold_threshold 2 3 c2_pairs (by decide)).2 (by decide)

/-- **C3**: the fold grouper is pair-conserving: the runs flatten back to
the zipped pair sequence (no pair dropped, duplicated or reordered), and
the rendered-line items of the full fold output, in order, are exactly the
lines of the zipped pairs. -/
theorem C3_fold_coverage (context_len fold_min : Nat)
    (zipped : List ((Bool × RLine) × (Bool × RLine))) :
    (group_runs (fun p => p.1.1) zipped).flatten = zipped
    ∧ (fold_content context_len fold_min zipped).filter OutItem.isLine
        = zipped.flatMap pair_lines := by
  refine ⟨group_runs_flatten _ _, ?_⟩
  unfold fold_content
  rw [filter_flatMap]
  have hemit : ∀ grp : List ((Bool × RLine) × (Bool × RLine)),
      (emit_group context_len fold_min grp).filter OutItem.isLine
        = grp.flatMap pair_lines := by
    intro grp
    have hfrom : ∀ (dc : Bool) (L : Nat)
        (g : List ((Bool × RLine) × (Bool × RLine))) (i : Nat),
        (emit_from dc context_len L i g).filter OutItem.isLine
          = g.flatMap pair_lines := by
      intro dc L g
      induction g with
      | nil => intro i; rfl
      | cons p rest ih =>
        intro i
        simp only [emit_from, List.filter_append, ih (i + 1), List.flatMap_cons]
        have hopen : ∀ n, (if dc = true ∧ i = context_len
            then [OutItem.openFold n] else []).filter OutItem.isLine = [] := by
          intro n
          split
          · rfl
          · rfl
        have hclose : (if dc = true ∧ i = L - context_len - 1
            then [OutItem.closeFold] else []).filter OutItem.isLine = [] := by
          split
          · rfl
          · rfl
        rw [hopen, hclose]
        simp [pair_lines, OutItem.isLine, List.filter_cons]
    simp only [emit_group]
    exact hfrom _ _ grp 0
  calc (group_runs (fun p => p.1.1) zipped).flatMap
        (fun a => (emit_group context_len fold_min a).filter OutItem.isLine)
      = (group_runs (fun p => p.1.1) zipped).flatMap (fun a => a.flatMap pair_lines) := by
        apply List.flatMap_congr
        intro a _
        exact hemit a
    _ = (group_runs (fun p => p.1.1) zipped).flatten.flatMap pair_lines :=
        (flatMap_flatten _ _).symm
    _ = zipped.flatMap pair_lines := by rw [group_runs_flatten]

/-! ## Alignment: one render line per diff record -/

/-- When the earlier records all have a falsy our-side line number and then
one record matches the sought line number, the scan emits exactly one
placeholder per skipped record and finds the match. -/
theorem scan_to_line_found (side : Side) (lineno : Nat) :
    ∀ (pre : List DiffRec) (r : DiffRec) (post : List DiffRec),
      (∀ x ∈ pre, x.ours.lineno = none) → r.ours.lineno = some lineno →
      scan_to_line side lineno (pre ++ r :: post)
        = (pre.map (fun _ => (true, RLine.empty side)), .found r post) := by
  intro pre
  induction pre with
  | nil =>
    intro r post _ hr
    simp only [List.nil_append, scan_to_line, if_pos hr, List.map_nil]
  | cons x pre' ih =>
    intro r post hall hr
    have hx : x.ours.lineno = none := hall x (by simp)
    have hxne : ¬x.ours.lineno = some lineno := by
      rw [hx]
      simp
    simp only [List.cons_append, scan_to_line, if_neg hxne]
    simp only [List.append_eq]
    rw [ih r post (fun y hy => hall y (List.mem_cons_of_mem x hy)) hr]
    simp

/-- A rendered line is never a placeholder. -/
theorem render_line_not_placeholder (side : Side) (lineno : Nat) (toks : List Tok)
    (r : DiffRec) : (render_line side lineno toks r).2.isPlaceholder = false := rfl

/-- When the token-line groups are numbered consecutively from `k` and the
truthy our-side line numbers of the diff records are exactly those same
numbers in order, the formatter succeeds and emits exactly one render line
per diff record, in order — a placeholder exactly for the records whose
our-side line number is falsy. -/
theorem format_groups_aligned (side : Side) :
    ∀ (gs : List (Nat × List Tok)) (k : Nat) (diff : List DiffRec) (b : Option DiffRec),
      gs.map (fun g => g.1) = List.range' k gs.length →
      diff.filterMap (fun r => r.ours.lineno) = List.range' k gs.length →
      ∃ out, format_groups side gs diff b = some out
        ∧ out.length = diff.length
        ∧ out.map (fun p => p.2.isPlaceholder)
            = diff.map (fun r => decide (r.ours.lineno = none)) := by
  intro gs
  induction gs with
  | nil =>
    intro k diff b _ hdiff
    simp only [List.length_nil, List.range'_zero] at hdiff
    have hnone : ∀ r ∈ diff, r.ours.lineno = none :=
      List.filterMap_eq_nil_iff.mp hdiff
    refine ⟨diff.map (fun _ => (true, RLine.empty side)), rfl, by simp, ?_⟩
    rw [List.map_map]
    apply List.map_congr_left
    intro r hr
    simp [RLine.isPlaceholder, hnone r hr]
  | cons g gs' ih =>
    obtain ⟨lineno, toks⟩ := g
    intro k diff b hgs hdiff
    simp only [List.length_cons, List.range'_succ, List.map_cons,
      List.cons.injEq] at hgs
    obtain ⟨hk, hgs'⟩ := hgs
    subst hk
    rw [List.length_cons, List.range'_succ] at hdiff
    obtain ⟨pre, a, post, hsplit, hprenone, ha, hpost⟩ :=
      List.filterMap_eq_cons_iff.mp hdiff
    subst hsplit
    obtain ⟨tail, htail, hlen, hmap⟩ := ih (lineno + 1) post (some a) hgs' hpost
    refine ⟨pre.map (fun _ => (true, RLine.empty side))
        ++ render_line side lineno toks a :: tail, ?_, ?_, ?_⟩
    · simp only [format_groups, scan_to_line_found side lineno pre a post hprenone ha,
        htail, Option.map_some']
    · simp only [List.length_append, List.length_map, List.length_cons, hlen]
    · simp only [List.map_append, List.map_map, List.map_cons,
        render_line_not_placeholder, hmap]
      congr 1
      · apply List.map_congr_left
        intro r hr
        simp [RLine.isPlaceholder, hprenone r hr]
      · simp [ha]

/-- **C4**: each aligned diff record yields exactly one left and one right
render line.  Under the diff-adapter/lexer alignment invariants (each
side's token-line groups are numbered `1..N` and that side's truthy diff
line numbers are exactly `1..N` in order), both formatters succeed, each
produces exactly one render line per diff record — a placeholder exactly
where that side's line number is absent — and in particular the number of
left render lines equals the number of right render lines. -/
theorem C4_pairing (diff : List MdiffRecord) (old_tokens new_tokens : List Tok)
    (hgl : (group_by_lineno (iter_token_lines old_tokens)).map (fun g => g.1)
        = List.range' 1 (group_by_lineno (iter_token_lines old_tokens)).length)
    (hgr : (group_by_lineno (iter_token_lines new_tokens)).map (fun g => g.1)
        = List.range' 1 (group_by_lineno (iter_token_lines new_tokens)).length)
    (hdl : diff.filterMap (fun r => r.old.lineno)
        = List.range' 1 (group_by_lineno (iter_token_lines old_tokens)).length)
    (hdr : diff.filterMap (fun r => r.new.lineno)
        = List.range' 1 (group_by_lineno (iter_token_lines new_tokens)).length) :
    ∃ ll rl, RecordFormatter_format .left diff old_tokens = some ll
      ∧ RecordFormatter_format .right diff new_tokens = some rl
      ∧ ll.length = diff.length
      ∧ rl.length = diff.length
      ∧ ll.map (fun p => p.2.isPlaceholder)
          = diff.map (fun r => decide (r.old.lineno = none))
      ∧ rl.map (fun p => p.2.isPlaceholder)
          = diff.map (fun r => decide (r.new.lineno = none)) := by
  have hfl : (diff.map (sided .left)).filterMap (fun r => r.ours.lineno)
      = List.range' 1 (group_by_lineno (iter_token_lines old_tokens)).length := by
    rw [List.filterMap_map]
    exact hdl
  have hfr : (diff.map (sided .right)).filterMap (fun r => r.ours.lineno)
      = List.range' 1 (group_by_lineno (iter_token_lines new_tokens)).length := by
    rw [List.filterMap_map]
    exact hdr
  obtain ⟨ll, hll, hlenl, hmapl⟩ :=
    format_groups_aligned .left (group_by_lineno (iter_token_lines old_tokens)) 1
      (diff.map (sided .left)) none hgl hfl
  obtain ⟨rl, hrl, hlenr, hmapr⟩ :=
    format_groups_aligned .right (group_by_lineno (iter_token_lines new_tokens)) 1
      (diff.map (sided .right)) none hgr hfr
  refine ⟨ll, rl, hll, hrl, by simpa using hlenl, by simpa using hlenr, ?_, ?_⟩
  · rw [hmapl, List.map_map]
    rfl
  · rw [hmapr, List.map_map]
    rfl

/-- Witness for `C4_pairing` on a concrete insert diff. -/
theorem C4_pairing_witness :
    ∃ ll rl,
      RecordFormatter_format .left c4_diff [(["Name"], "a\n".toList)] = some ll
      ∧ RecordFormatter_format .right c4_diff [(["Name"], "a\nb\n".toList)] = some rl
      ∧ ll.length = c4_diff.length
      ∧ rl.length = c4_diff.length
      ∧ ll.map (fun p => p.2.isPlaceholder)
          = c4_diff.map (fun r => decide (r.old.lineno = none))
      ∧ rl.map (fun p => p.2.isPlaceholder)
          = c4_diff.map (fun r => decide (r.new.lineno = none)) :=
  C4_pairing c4_diff [(["Name"], "a\n".toList)] [(["Name"], "a\nb\n".toList)]
    (by decide) (by decide) (by decide) (by decide)

/-- **C4 counterexample**: for the input texts old `""`, new `"a"` (the
diff adapter yields one aligned pair, the newline-normalizing lexer still
yields one token line for the empty side), the left formatter emits *two*
render lines for the single pair — the placeholder for the padding record
plus a stale-variable render line for the token-line group — while the
right formatter emits one, so an aligned pair does not yield exactly one
render line per side and the left and right totals differ. -/
theorem C4_pairing_counterexample :
    c4_empty_old_diff.length = 1
    ∧ (RecordFormatter_format .left c4_empty_old_diff empty_text_tokens).map
        (fun l => l.length) = some 2
    ∧ (RecordFormatter_format .right c4_empty_old_diff
        [(["Name"], "a\n".toList)]).map (fun l => l.length) = some 1
    ∧ (2 : Nat) ≠ 1 := by
  refine ⟨by decide, by decide, by decide, by decide⟩

/-! ## Identical inputs and the empty input -/

/-- The side swap is the identity on a self-paired record. -/
theorem sided_same (side : Side) (k : Nat) (l : List Char) :
    sided side ⟨⟨some k, l⟩, ⟨some k, l⟩, false⟩ = ⟨⟨some k, l⟩, ⟨some k, l⟩, false⟩ := by
  cases side
  · rfl
  · rfl

/-- Rendering a line for a self-paired unchanged record: change flag
`False`, change class `''`, spans split at whatever markers the line text
scans to. -/
theorem render_line_same (side : Side) (k lineno : Nat) (toks : List Tok) (l : List Char) :
    render_line side lineno toks ⟨⟨some k, l⟩, ⟨some k, l⟩, false⟩
      = (false, RLine.line side lineno ""
          (format_line_tokens toks 0 "" (scan_markers 0 l))) := rfl

/-- On the diff of two identical line lists, a formatter whose token-line
groups are numbered to match emits exactly one unchanged line per record:
flag `False`, change class `''`. -/
theorem format_groups_same (side : Side) :
    ∀ (ls : List (List Char)) (gs : List (Nat × List Tok)) (k : Nat) (b : Option DiffRec),
      gs.map (fun g => g.1) = List.range' k ls.length →
      format_groups side gs ((mdiff_same k ls).map (sided side)) b
        = some ((gs.zip ls).map (fun gl =>
            (false, RLine.line side gl.1.1 ""
              (format_line_tokens gl.1.2 0 "" (scan_markers 0 gl.2))))) := by
  intro ls
  induction ls with
  | nil =>
    intro gs k b hgs
    simp only [List.length_nil, List.range'_zero, List.map_eq_nil_iff] at hgs
    subst hgs
    rfl
  | cons l ls' ih =>
    intro gs k b hgs
    cases gs with
    | nil =>
      rw [List.length_cons, List.range'_succ] at hgs
      exact absurd hgs (by simp)
    | cons g gs' =>
      obtain ⟨lineno, toks⟩ := g
      rw [List.length_cons, List.range'_succ] at hgs
      simp only [List.map_cons, List.cons.injEq] at hgs
      obtain ⟨hk, hgs'⟩ := hgs
      subst hk
      simp only [mdiff_same, List.map_cons, sided_same]
      have hscan : scan_to_line side lineno
          (⟨⟨some lineno, l⟩, ⟨some lineno, l⟩, false⟩ :: (mdiff_same (lineno + 1) ls').map (sided side))
          = ([], .found ⟨⟨some lineno, l⟩, ⟨some lineno, l⟩, false⟩
              ((mdiff_same (lineno + 1) ls').map (sided side))) := by
        simp [scan_to_line]
      simp only [format_groups, hscan, ih gs' (lineno + 1) (some _) hgs',
        Option.map_some']
      simp [render_line_same, List.zip_cons_cons]

/-- **C9 (amended): idempotence for non-empty texts.**  Diffing a non-empty
text against itself (the external diff engine modelled by `mdiff_same`,
token-line groups matching the line count) succeeds on both sides, yields
zero lines with a `Change` or `Insert` class (every line flag is `False`
and every change class is `''`), and the whole file forms one single
candidate unchanged run in the fold grouper. -/
theorem C9_idempotence (ls : List (List Char)) (tokens : List Tok)
    (context_len fold_min : Nat) (hne : ls ≠ [])
    (hg : (group_by_lineno (iter_token_lines tokens)).map (fun g => g.1)
        = List.range' 1 ls.length) :
    ∃ ll rl, RecordFormatter_format .left (mdiff_same 1 ls) tokens = some ll
      ∧ RecordFormatter_format .right (mdiff_same 1 ls) tokens = some rl
      ∧ (∀ p ∈ ll, p.1 = false ∧ p.2.change_class = "")
      ∧ (∀ p ∈ rl, p.1 = false ∧ p.2.change_class = "")
      ∧ group_runs (fun p => p.1.1) (ll.zip rl) = [ll.zip rl]
      ∧ html_diff_content (mdiff_same 1 ls) tokens tokens context_len fold_min
          = some (fold_content context_len fold_min (ll.zip rl)) := by
  set gs := group_by_lineno (iter_token_lines tokens) with hgs_def
  have hlen : gs.length = ls.length := by
    have := congrArg List.length hg
    simpa using this
  have hfl := format_groups_same .left ls gs 1 none (by rw [hg])
  have hfr := format_groups_same .right ls gs 1 none (by rw [hg])
  set ll := ((gs.zip ls).map (fun gl =>
      (false, RLine.line Side.left gl.1.1 ""
        (format_line_tokens gl.1.2 0 "" (scan_markers 0 gl.2))))) with hll_def
  set rl := ((gs.zip ls).map (fun gl =>
      (false, RLine.line Side.right gl.1.1 ""
        (format_line_tokens gl.1.2 0 "" (scan_markers 0 gl.2))))) with hrl_def
  have hmem_l : ∀ p ∈ ll, p.1 = false ∧ p.2.change_class = "" := by
    intro p hp
    rw [hll_def] at hp
    obtain ⟨gl, _, rfl⟩ := List.mem_map.mp hp
    exact ⟨rfl, rfl⟩
  have hmem_r : ∀ p ∈ rl, p.1 = false ∧ p.2.change_class = "" := by
    intro p hp
    rw [hrl_def] at hp
    obtain ⟨gl, _, rfl⟩ := List.mem_map.mp hp
    exact ⟨rfl, rfl⟩
  have hzip_ne : ll.zip rl ≠ [] := by
    have hlzn : (gs.zip ls).length ≠ 0 := by
      rw [List.length_zip, hlen]
      have : ls.length ≠ 0 := fun h => hne (List.eq_nil_of_length_eq_zero h)
      omega
    intro h
    have := congrArg List.length h
    rw [List.length_zip, hll_def, hrl_def] at this
    simp only [List.length_map, Nat.min_self, List.length_nil] at this
    exact hlzn this
  have hrun : group_runs (fun p => p.1.1) (ll.zip rl) = [ll.zip rl] := by
    apply group_runs_of_const _ false _ hzip_ne
    intro p hp
    rcases p with ⟨a, c⟩
    have := (List.of_mem_zip hp).1
    exact (hmem_l a this).1
  refine ⟨ll, rl, ?_, ?_, hmem_l, hmem_r, hrun, ?_⟩
  · rw [RecordFormatter_format, ← hgs_def, hfl, hll_def]
  · rw [RecordFormatter_format, ← hgs_def, hfr, hrl_def]
  · rw [html_diff_content]
    rw [show RecordFormatter_format .left (mdiff_same 1 ls) tokens = some ll from by
      rw [RecordFormatter_format, ← hgs_def, hfl, hll_def]]
    rw [show RecordFormatter_format .right (mdiff_same 1 ls) tokens = some rl from by
      rw [RecordFormatter_format, ← hgs_def, hfr, hrl_def]]
    rfl

/-- Witness for `C9_idempotence` at the one-line text `"a"`. -/
theorem C9_idempotence_witness :
    ∃ ll rl,
      RecordFormatter_format .left (mdiff_same 1 [['a']]) [(["Name"], "a\n".toList)] = some ll
      ∧ RecordFormatter_format .right (mdiff_same 1 [['a']]) [(["Name"], "a\n".toList)] = some rl
      ∧ (∀ p ∈ ll, p.1 = false ∧ p.2.change_class = "")
      ∧ (∀ p ∈ rl, p.1 = false ∧ p.2.change_class = "")
      ∧ group_runs (fun p => p.1.1) (ll.zip rl) = [ll.zip rl]
      ∧ html_diff_content (mdiff_same 1 [['a']]) [(["Name"], "a\n".toList)]
          [(["Name"], "a\n".toList)] 5 5
          = some (fold_content 5 5 (ll.zip rl)) :=
  C9_idempotence [['a']] [(["Name"], "a\n".toList)] 5 5 (by decide) (by decide)

/-- **C9 counterexample**: for the empty text (`splitlines` is empty, so
the modelled diff engine emits no records, while the modelled lexer still
yields one token line), the pipeline does not produce any unchanged run —
it fails outright with the unbound-variable error. -/
theorem C9_idempotence_counterexample :
    html_diff_content (mdiff_same 1 []) empty_text_tokens empty_text_tokens 5 5 = none := by
  decide

/-- **C10**: on empty old and new texts the diff adapter yields zero line
pairs while the newline-normalizing lexer still yields exactly one token
line, so `RecordFormatter.format` reads the loop variable `change` before
any assignment and the pipeline fails with an error (`none`) for every
`context_len`/`fold_min` instead of returning an empty segment sequence. -/
theorem C10_empty_crash (context_len fold_min : Nat) :
    (group_by_lineno (iter_token_lines empty_text_tokens)).map (fun g => g.1) = [1]
    ∧ RecordFormatter_format .left (mdiff_same 1 []) empty_text_tokens = none
    ∧ html_diff_content (mdiff_same 1 []) empty_text_tokens empty_text_tokens
        context_len fold_min = none := by
  refine ⟨by decide, by decide, rfl⟩

/-! ## Marker splitting: classes and edges -/

/-- **C5**: evaluation at the failing input.  A `Keyword` token `"foo"`
(semantic class `wsd-k`) cut by a word-change marker pair at offsets 1 and
2 is split into fragments whose pre-cut spans carry the class
`"wsd-wsd-k"` — the doubled prefix written at line 616 of the source — and
not the semantic class `"wsd-k"` the unsplit token carries (line 622), so
split fragments do not keep the original semantic class. -/
theorem C5_split_class_bug :
    format_line_tokens [(["Keyword"], "foo".toList)] 0 ""
        [(1, ['\x00', '+']), (2, ['\x01'])]
      = [⟨"wsd-wsd-k", ['f']⟩, ⟨"wsd-wsd-k wsd-word-change", ['o']⟩, ⟨"wsd-k", ['o']⟩]
    ∧ get_token_class ["Keyword"] = "wsd-k"
    ∧ ("wsd-wsd-k" : String) ≠ "wsd-k" := by
  refine ⟨by decide, by decide, by decide⟩

/-- **C6 (amended): marker boundaries at token edges.**  A marker exactly
at a token's *end* edge does not split the token: it is emitted as one span
and the marker stays pending.  A marker exactly at a token's *start* edge,
however, does fire the splitting branch: it produces a zero-width empty
span (with the doubled-prefix class) before the token, whose own text is
then emitted whole in a single span with the toggled diff class. -/
theorem C6_edge_markers (css : String) (value : List Char) (source_pos : Nat)
    (diff_class : String) (mtype : List Char) (ms : List (Nat × List Char))
    (hne : value ≠ []) :
    (split_token css value source_pos diff_class
        ((source_pos + value.length, mtype) :: ms)
      = ([⟨css ++ diff_class, value⟩], source_pos + value.length, diff_class,
          (source_pos + value.length, mtype) :: ms))
    ∧ (split_token css value source_pos diff_class [(source_pos, mtype)]
      = ([⟨"wsd-" ++ css ++ diff_class, []⟩,
          ⟨css ++ (if mtype.head? = some '\x00' then " wsd-word-change" else ""), value⟩],
          source_pos + value.length,
          (if mtype.head? = some '\x00' then " wsd-word-change" else ""), [])) := by
  have hpos : 0 < value.length := List.length_pos.mpr hne
  constructor
  · have hcond : ¬(source_pos ≤ source_pos + value.length
        ∧ source_pos + value.length < source_pos + value.length) := by omega
    simp only [split_token, if_neg hcond]
  · have hcond : source_pos ≤ source_pos
        ∧ source_pos < source_pos + value.length := by omega
    simp only [split_token, if_pos hcond, Nat.sub_self, List.take_zero,
      List.drop_zero, List.length_nil, Nat.add_zero]

/-- Witness for `C6_edge_markers`: keyword token `"foo"` at offsets
`[0, 3)`, end-edge marker at 3 (left intact, marker pending) and
start-edge marker at 0 (empty span, then the whole token). -/
theorem C6_edge_markers_witness :
    (split_token "wsd-k" "foo".toList 0 "" ((0 + "foo".toList.length, ['\x00', '+']) :: [])
      = ([⟨"wsd-k" ++ "", "foo".toList⟩], 0 + "foo".toList.length, "",
          (0 + "foo".toList.length, ['\x00', '+']) :: []))
    ∧ (split_token "wsd-k" "foo".toList 0 "" [(0, ['\x00', '+'])]
      = ([⟨"wsd-" ++ "wsd-k" ++ "", []⟩,
          ⟨"wsd-k" ++ (if (['\x00', '+'] : List Char).head? = some '\x00'
              then " wsd-word-change" else ""), "foo".toList⟩],
          0 + "foo".toList.length,
          (if (['\x00', '+'] : List Char).head? = some '\x00'
              then " wsd-word-change" else ""), [])) :=
  C6_edge_markers "wsd-k" "foo".toList 0 "" ['\x00', '+'] [] (by decide)

/-- **C6 counterexample**: a marker falling exactly between two tokens
(offset 3, the start edge of `"bar"`) *does* produce an extra empty span at
the edge — `⟨"wsd-wsd-n", []⟩` — contradicting the claim that an
edge-coincident boundary never yields an extra (empty) span. -/
theorem C6_edge_markers_counterexample :
    format_line_tokens [(["Keyword"], "foo".toList), (["Name"], "bar".toList)] 0 ""
        [(3, ['\x00', '+'])]
      = [⟨"wsd-k", "foo".toList⟩, ⟨"wsd-wsd-n", []⟩,
         ⟨"wsd-n wsd-word-change", "bar".toList⟩]
    ∧ (⟨"wsd-wsd-n", []⟩ : StyledSpan)
        ∈ format_line_tokens [(["Keyword"], "foo".toList), (["Name"], "bar".toList)] 0 ""
            [(3, ['\x00', '+'])]
    ∧ (⟨"wsd-wsd-n", []⟩ : StyledSpan).text = [] := by
  refine ⟨by decide, by decide, by decide⟩

/-- With no markers, every token becomes exactly one span with its bare
semantic class. -/
theorem format_line_tokens_no_markers :
    ∀ (toks : List Tok) (source_pos : Nat),
      format_line_tokens toks source_pos "" []
        = toks.map (fun p => ⟨get_token_class p.1, p.2⟩) := by
  intro toks
  induction toks with
  | nil => intro sp; rfl
  | cons tv rest ih =>
    obtain ⟨t, v⟩ := tv
    intro sp
    simp only [format_line_tokens, split_token, List.map_cons]
    rw [ih]
    simp

/-- **C7**: whole-line inserts and deletes suppress word-level
highlighting.  When the other side has no line number, the rendered line's
markers are the empty list — regardless of any marker bytes in the raw
diff-marked text — so every token is emitted as a single span with its bare
semantic class and no `wsd-word-change` span is produced; the line class is
`''` when unchanged and `' wsd-insert'` otherwise. -/
theorem C7_whole_line_suppression (side : Side) (lineno : Nat) (toks : List Tok)
    (r : DiffRec) (hth : r.theirs.lineno = none) :
    render_line side lineno toks r
      = (r.changed, RLine.line side lineno
          (if r.changed = false then "" else " wsd-insert")
          (toks.map (fun p => ⟨get_token_class p.1, p.2⟩))) := by
  simp only [render_line, hth, ne_eq, not_true_eq_false, if_false,
    format_line_tokens_no_markers, or_true, if_true]

/-- Witness for `C7_whole_line_suppression`: a whole-line delete whose raw
marked text does contain marker bytes (`scan_markers` would find two), yet
the rendered line has one bare-class span per token and no word-change
span. -/
theorem C7_whole_line_suppression_witness :
    scan_markers 0 ("a\x00+b\x01".toList) ≠ []
    ∧ render_line .left 1 [(["Keyword"], "ab".toList)]
        ⟨⟨some 1, "a\x00+b\x01".toList⟩, ⟨none, []⟩, true⟩
      = ((true : Bool), RLine.line .left 1
          (if (true : Bool) = false then "" else " wsd-insert")
          ([((["Keyword"] : Ttype), "ab".toList)].map
            (fun p => ⟨get_token_class p.1, p.2⟩))) :=
  ⟨by decide,
    C7_whole_line_suppression .left 1 [(["Keyword"], "ab".toList)]
      ⟨⟨some 1, "a\x00+b\x01".toList⟩, ⟨none, []⟩, true⟩ rfl⟩

/-! ## No lexer/text mismatch validation -/

/-- **C8 (amended): no mismatch validation.**  When the token stream's
concatenation differs from the side's text (here tokens spell `"xy\n"`
while the diffed text is `"ab\n"`), the pipeline performs no check and
raises no typed error: it succeeds and silently emits spans whose text
follows the token stream (`"xy"`), not the diff text (`"ab"`). -/
theorem C8_no_mismatch_error :
    (([(["Name"], "xy\n".toList)] : List Tok).flatMap (fun p => p.2) ≠ "ab\n".toList)
    ∧ html_diff_content [⟨⟨some 1, "ab".toList⟩, ⟨some 1, "ab".toList⟩, false⟩]
        [(["Name"], "xy\n".toList)] [(["Name"], "xy\n".toList)] 5 5
      = some [OutItem.line (RLine.line .left 1 "" [⟨"wsd-n", "xy".toList⟩]),
              OutItem.line (RLine.line .right 1 "" [⟨"wsd-n", "xy".toList⟩])]
    ∧ ("xy".toList : List Char) ≠ "ab".toList := by
  refine ⟨by decide, by decide, by decide⟩

/-- **C8 counterexample**: a lexer/diff text mismatch on which the claimed
fail-fast behaviour does not occur — the pipeline returns a successful
result. -/
theorem C8_no_mismatch_error_counterexample :
    (([(["Name"], "xy\n".toList)] : List Tok).flatMap (fun p => p.2) ≠ "ab\n".toList)
    ∧ (html_diff_content [⟨⟨some 1, "ab".toList⟩, ⟨some 1, "ab".toList⟩, false⟩]
        [(["Name"], "xy\n".toList)] [(["Name"], "xy\n".toList)] 5 5).isSome = true := by
  refine ⟨by decide, by decide⟩

end Wsdiff
